import Mathlib

/-!
Shallow embedding of the splay-tree implementation in `splay.c` / `splay.h`
(a C splay tree with duplicate keys, top-down splaying), together with
proofs of the behavioural properties claimed by its specification.

Modelling conventions:
* `splay_Key` (C `int`) is modelled as `Int`; only comparisons are performed
  on keys, so no wraparound arises.  The `INT_MIN` / `INT_MAX` sentinels used
  by `splay_health_check` are the exact 32-bit values.
* `splay_Satellite` (C `void*`) is an opaque payload never inspected by the
  tree; it is modelled as `Option Nat`, with `none` playing the role of the
  null pointer (the blank result `SPLAY_BLANK_RESULT` is `{0, 0, NULL}`).
* A node (`struct splay_Node`) is a vertex of the inductive type `STree`;
  the null pointer is `STree.nil`.  Field names follow the source (`keiy`).
* `struct splay_Tree` is `splay_Tree` with `root : STree` and
  `size : Nat`; the C field is `unsigned`, so every size arithmetic step of
  the source (`size += 1`, `size -= 1`) is performed modulo `2^32`.
* Functions whose C counterpart dereferences a possibly-NULL tree handle
  take `Option splay_Tree`; `none` models the NULL handle.  Functions that
  dereference the handle unconditionally (`splay_insert`, `splay_update`)
  take `splay_Tree` directly.
* `malloc` is modelled by an explicit allocation oracle: a `List Bool`
  whose head decides the next `node_ctor` call (`true` = success); an
  exhausted oracle fails.  `free` has no observable effect in a functional
  model, so it is not represented.
* The transient `struct splay_Topdown` state is represented by the two
  remainder trees `l` and `r` threaded through the descent loops.  The
  C "tip" of the left remainder tree is always the address of its
  rightmost null child slot (each `update_left_tip` stores the new node at
  the tip, nulls the node's right child, and moves the tip there), so
  attaching at the tip is grafting at the rightmost null position
  (`graftRight`); symmetrically `graftLeft` for the right remainder tree.
  The two-level `history` buffer is transcribed by performing, per loop
  round, the one or two comparison steps and then the `topdown_set_aside`
  case analysis (zig / zig-zig with rotation / zig-zag) directly on the
  matched subtrees, including the `undo_first_step` / `undo_2nd_step`
  rollbacks on a failed search.
-/

/-- Key type used for the tree (C `int`), in a total order. -/
abbrev splay_Key := Int

/-- Satellite data type (C `void*`); `none` models the null pointer. -/
abbrev splay_Satellite := Option Nat

/-- Basic BST node of the tree (`struct splay_Node`), with `STree.nil` for
the null pointer.  `left` holds keys not exceeding `keiy`, `right` holds
keys at least as large as `keiy`. -/
inductive STree where
  | nil : STree
  | node (left : STree) (keiy : splay_Key) (sat : splay_Satellite) (right : STree) : STree
deriving DecidableEq, Repr

/-- Tree object (`struct splay_Tree`): root pointer plus maintained size. -/
structure splay_Tree where
  root : STree
  size : Nat
deriving DecidableEq, Repr

/-- Output of a search (`struct splay_Result`). -/
structure splay_Result where
  found : Bool
  key : splay_Key
  sat : splay_Satellite
deriving DecidableEq, Repr

/-- The blank result `SPLAY_BLANK_RESULT` = `{0, 0, NULL}`. -/
def SPLAY_BLANK_RESULT : splay_Result := ⟨false, 0, none⟩

/-- The source's `INT_MIN` of the 32-bit `int` key type. -/
def INT_MIN : Int := -2147483648

/-- The source's `INT_MAX` of the 32-bit `int` key type. -/
def INT_MAX : Int := 2147483647

/-- Modulus of the C `unsigned` size field. -/
def UINT_MOD : Nat := 4294967296

/-- Left rotation `left_rot`, where the argument is the top of the rotated
link; other shapes cannot occur (the C code asserts `t && t->right`). -/
def left_rot : STree → STree
  | .node l x s (.node rl y u rr) => .node (.node l x s rl) y u rr
  | t => t

/-- Right rotation `right_rot`, where the argument is the top of the rotated
link; other shapes cannot occur (the C code asserts `t && t->left`). -/
def right_rot : STree → STree
  | .node (.node ll y u lr) x s r => .node ll y u (.node lr x s r)
  | t => t

/-- Replace the rightmost null child slot of `a` by `b`.  This is the
attachment point ("tip") of the left remainder tree `rem[0]`. -/
def graftRight : STree → STree → STree
  | .nil, b => b
  | .node l x s r, b => .node l x s (graftRight r b)

/-- Replace the leftmost null child slot of `a` by `b`.  This is the
attachment point ("tip") of the right remainder tree `rem[1]`. -/
def graftLeft : STree → STree → STree
  | .nil, b => b
  | .node l x s r, b => .node (graftLeft l b) x s r

/-- The source's `update_left_tip`: attach node `n` at the tip of the left remainder
tree `rem`, nulling `n`'s right child (the C code sets `n->left` is kept,
`n->right = NULL`, and advances the tip to `&n->right`).  The `nil` case
cannot occur (the C code asserts `n`). -/
def update_left_tip (rem : STree) : STree → STree
  | .nil => rem
  | .node a x s _ => graftRight rem (.node a x s .nil)

/-- The source's `update_right_tip`: attach node `n` at the tip of the right remainder
tree `rem`, nulling `n`'s left child.  The `nil` case cannot occur. -/
def update_right_tip (rem : STree) : STree → STree
  | .nil => rem
  | .node _ x s b => graftLeft rem (.node .nil x s b)

/-- The descent loop of `search_and_splay`: repeatedly take one or two
comparison steps down from the current root, recording the traversed
ancestors in the history, and commit them to the remainder trees `l` and
`r` via the `topdown_set_aside` case analysis.  Returns the final
remainder trees, the node that is about to be splayed to the root (after
`undo_first_step` / `undo_2nd_step` rollback on a failed search, and
including the final pending zig of the C code performed after its loop),
and the found flag.  The `nil` case of the tree argument cannot occur:
the caller only starts the loop on a non-null root. -/
def sasLoop (k : splay_Key) : STree → STree → STree → STree × STree × STree × Bool
  | l, r, .nil => (l, r, .nil, false)
  | l, r, .node lt x s rt =>
    if x < k then
      -- LESSKEY(root, k): STEP_RIGHT_FIRST
      match rt with
      | .nil =>
        -- child absent: undo_first_step, not found, history blank
        (l, r, .node lt x s rt, false)
      | .node lt2 x2 s2 rt2 =>
        if x2 < k then
          -- STEP_RIGHT_2ND
          match rt2 with
          | .nil =>
            -- child absent: undo_2nd_step, then the final zig right commits
            -- history[RIGHT_FIRST] to the left remainder tree
            (update_left_tip l (.node lt x s (.node lt2 x2 s2 rt2)), r,
              .node lt2 x2 s2 rt2, false)
          | .node a b c d =>
            -- zig-zig \\ : left_rot the two-node chain, commit to left tip
            sasLoop k
              (update_left_tip l (left_rot (.node lt x s (.node lt2 x2 s2 rt2))))
              r (.node a b c d)
        else if k < x2 then
          -- STEP_LEFT_2ND
          match lt2 with
          | .nil =>
            -- undo_2nd_step, then final zig right
            (update_left_tip l (.node lt x s (.node lt2 x2 s2 rt2)), r,
              .node lt2 x2 s2 rt2, false)
          | .node a b c d =>
            -- zig-zag > : first-level ancestor to the left tip,
            -- second-level ancestor to the right tip
            sasLoop k
              (update_left_tip l (.node lt x s (.node lt2 x2 s2 rt2)))
              (update_right_tip r (.node lt2 x2 s2 rt2))
              (.node a b c d)
        else
          -- found at root's child; final zig right commits the first step
          (update_left_tip l (.node lt x s (.node lt2 x2 s2 rt2)), r,
            .node lt2 x2 s2 rt2, true)
    else if k < x then
      -- KEYLESS(k, root): STEP_LEFT_FIRST
      match lt with
      | .nil =>
        (l, r, .node lt x s rt, false)
      | .node lt2 x2 s2 rt2 =>
        if x2 < k then
          -- STEP_RIGHT_2ND
          match rt2 with
          | .nil =>
            -- undo_2nd_step, then final zig left
            (l, update_right_tip r (.node (.node lt2 x2 s2 rt2) x s rt),
              .node lt2 x2 s2 rt2, false)
          | .node a b c d =>
            -- zig-zag < : first-level ancestor to the right tip,
            -- second-level ancestor to the left tip
            sasLoop k
              (update_left_tip l (.node lt2 x2 s2 rt2))
              (update_right_tip r (.node (.node lt2 x2 s2 rt2) x s rt))
              (.node a b c d)
        else if k < x2 then
          -- STEP_LEFT_2ND
          match lt2 with
          | .nil =>
            (l, update_right_tip r (.node (.node lt2 x2 s2 rt2) x s rt),
              .node lt2 x2 s2 rt2, false)
          | .node a b c d =>
            -- zig-zig // : right_rot the two-node chain, commit to right tip
            sasLoop k l
              (update_right_tip r (right_rot (.node (.node lt2 x2 s2 rt2) x s rt)))
              (.node a b c d)
        else
          -- found at root's child; final zig left
          (l, update_right_tip r (.node (.node lt2 x2 s2 rt2) x s rt),
            .node lt2 x2 s2 rt2, true)
    else
      -- found at root: no steps down, history blank
      (l, r, .node lt x s rt, true)

/-- The source's `search_and_splay`: search the tree for key `k` with top-down splaying.
Returns the updated root (x=change(x) idiom) and the found flag.  After the
descent loop, the winning node's own subtrees are grafted to the tips of
the remainder trees, which become its new subtrees. -/
def search_and_splay (root : STree) (k : splay_Key) : STree × Bool :=
  match root with
  | .nil => (.nil, false)
  | .node lt x s rt =>
    match sasLoop k .nil .nil (.node lt x s rt) with
    | (l, r, .node ml mx ms mr, found) =>
      (.node (graftRight l ml) mx ms (graftLeft r mr), found)
    | (_, _, .nil, found) => (.nil, found)  -- cannot occur

/-- The source's `splay_find`: search for `k`; a NULL handle yields the blank result.
On success the result carries `k` and the new root's satellite.  The
updated handle state is returned alongside (the C function mutates
`t->root` in place). -/
def splay_find (ot : Option splay_Tree) (k : splay_Key) :
    splay_Result × Option splay_Tree :=
  match ot with
  | none => (SPLAY_BLANK_RESULT, none)
  | some t =>
    match search_and_splay t.root k with
    | (root', found) =>
      if found then
        match root' with
        | .node _ _ ms _ => (⟨true, k, ms⟩, some ⟨root', t.size⟩)
        | .nil => (SPLAY_BLANK_RESULT, some ⟨root', t.size⟩)  -- cannot occur
      else
        (SPLAY_BLANK_RESULT, some ⟨root', t.size⟩)

/-- The descent loop of `splay_min`: walk down the chain of left links, two
at a time, storing every traversed node in the right remainder tree; no key
comparisons happen.  Returns the final right remainder tree and the
terminal (minimal) node.  The `nil` case cannot occur. -/
def minLoop : STree → STree → STree × STree
  | r, .nil => (r, .nil)
  | r, .node .nil x s rt => (r, .node .nil x s rt)
  | r, .node (.node .nil x2 s2 rt2) x s rt =>
    -- single step: zig left commits the parent to the right tip
    (update_right_tip r (.node (.node .nil x2 s2 rt2) x s rt),
      .node .nil x2 s2 rt2)
  | r, .node (.node (.node a b c d) x2 s2 rt2) x s rt =>
    -- two steps: zig-zig // commits the rotated pair to the right tip
    minLoop
      (update_right_tip r
        (right_rot (.node (.node (.node a b c d) x2 s2 rt2) x s rt)))
      (.node a b c d)

/-- The source's `splay_min`: splay the minimum to the root.  Not-found only on a NULL
handle or an empty tree.  The minimum node's right subtree is grafted to
the tip of the right remainder tree, which becomes its new right child. -/
def splay_min (ot : Option splay_Tree) : splay_Result × Option splay_Tree :=
  match ot with
  | none => (SPLAY_BLANK_RESULT, none)
  | some t =>
    match t.root with
    | .nil => (SPLAY_BLANK_RESULT, some t)
    | .node lt x s rt =>
      match minLoop .nil (.node lt x s rt) with
      | (r, .node _ mx ms mr) =>
        (⟨true, mx, ms⟩, some ⟨.node .nil mx ms (graftLeft r mr), t.size⟩)
      | (_, .nil) => (SPLAY_BLANK_RESULT, some t)  -- cannot occur

/-- The descent loop of `splay_max`, the mirror image of `minLoop`: walk
down the chain of right links, storing every traversed node in the left
remainder tree. -/
def maxLoop : STree → STree → STree × STree
  | l, .nil => (l, .nil)
  | l, .node lt x s .nil => (l, .node lt x s .nil)
  | l, .node lt x s (.node lt2 x2 s2 .nil) =>
    (update_left_tip l (.node lt x s (.node lt2 x2 s2 .nil)),
      .node lt2 x2 s2 .nil)
  | l, .node lt x s (.node lt2 x2 s2 (.node a b c d)) =>
    maxLoop
      (update_left_tip l
        (left_rot (.node lt x s (.node lt2 x2 s2 (.node a b c d)))))
      (.node a b c d)

/-- The source's `splay_max`: splay the maximum to the root, mirror image of
`splay_min`. -/
def splay_max (ot : Option splay_Tree) : splay_Result × Option splay_Tree :=
  match ot with
  | none => (SPLAY_BLANK_RESULT, none)
  | some t =>
    match t.root with
    | .nil => (SPLAY_BLANK_RESULT, some t)
    | .node lt x s rt =>
      match maxLoop .nil (.node lt x s rt) with
      | (l, .node ml mx ms _) =>
        (⟨true, mx, ms⟩, some ⟨.node (graftRight l ml) mx ms .nil, t.size⟩)
      | (_, .nil) => (SPLAY_BLANK_RESULT, some t)  -- cannot occur

/-- The partition loop of `insert_and_splay`: rip the tree in half according
to the new node's key until the root becomes null.  Keys compared less than
`k` go toward the left remainder tree, all others toward the right one.
The `topdown_set_aside` in the C `for` update clause runs even after the
root has stepped to null, which is why the recursive calls here commit the
history before recursing on a possibly-null subtree. -/
def iasLoop (k : splay_Key) : STree → STree → STree → STree × STree
  | l, r, .nil => (l, r)
  | l, r, .node lt x s rt =>
    if x < k then
      -- LESSKEY(root, n->keiy): STEP_RIGHT_FIRST
      match rt with
      | .nil =>
        -- root is null: the update clause performs a zig right, loop exits
        (update_left_tip l (.node lt x s rt), r)
      | .node lt2 x2 s2 rt2 =>
        if x2 < k then
          -- STEP_RIGHT_2ND, then zig-zig \\
          iasLoop k
            (update_left_tip l (left_rot (.node lt x s (.node lt2 x2 s2 rt2))))
            r rt2
        else
          -- STEP_LEFT_2ND, then zig-zag >
          iasLoop k
            (update_left_tip l (.node lt x s (.node lt2 x2 s2 rt2)))
            (update_right_tip r (.node lt2 x2 s2 rt2))
            lt2
    else
      -- STEP_LEFT_FIRST
      match lt with
      | .nil =>
        (l, update_right_tip r (.node lt x s rt))
      | .node lt2 x2 s2 rt2 =>
        if x2 < k then
          -- STEP_RIGHT_2ND, then zig-zag <
          iasLoop k
            (update_left_tip l (.node lt2 x2 s2 rt2))
            (update_right_tip r (.node (.node lt2 x2 s2 rt2) x s rt))
            rt2
        else
          -- STEP_LEFT_2ND, then zig-zig //
          iasLoop k l
            (update_right_tip r (right_rot (.node (.node lt2 x2 s2 rt2) x s rt)))
            lt2

/-- The source's `insert_and_splay`: partition all old nodes into the two remainder
trees keyed on the new node's key, then graft them as the children of the
freshly allocated leaf node `n = (k, s)`, which becomes the new root. -/
def insert_and_splay (root : STree) (k : splay_Key) (s : splay_Satellite) : STree :=
  match root with
  | .nil => .node .nil k s .nil
  | .node lt x s0 rt =>
    match iasLoop k .nil .nil (.node lt x s0 rt) with
    | (l, r) => .node l k s r

/-- The source's `splay_insert`: allocate a node (`alloc` is the outcome of the single
`node_ctor` / `malloc` call); on failure return failure with the tree
untouched; on success splay-insert the node and increment the `unsigned`
size field. -/
def splay_insert (alloc : Bool) (t : splay_Tree) (k : splay_Key)
    (s : splay_Satellite) : Bool × splay_Tree :=
  if alloc then
    (true, ⟨insert_and_splay t.root k s, (t.size + 1) % UINT_MOD⟩)
  else
    (false, t)

/-- Overwrite the satellite of the root node, as `splay_update` does on
the splayed root (`t->root->sat = sat`). -/
def setRootSat (t : STree) (s : splay_Satellite) : STree :=
  match t with
  | .nil => .nil
  | .node l x _ r => .node l x s r

/-- The source's `splay_update`: search-and-splay `k`; on success overwrite the root's
satellite, on failure leave the (resplayed) tree as the search left it. -/
def splay_update (t : splay_Tree) (k : splay_Key) (s : splay_Satellite) :
    Bool × splay_Tree :=
  match search_and_splay t.root k with
  | (root', found) =>
    if found then (true, ⟨setRootSat root' s, t.size⟩)
    else (false, ⟨root', t.size⟩)

/-- The source's `splay_erase`: perform `splay_find`; on failure return failure (the
find may still have resplayed the tree).  On success the matching node is
the root `radix`; report its satellite through the write parameter
(modelled as the `Option` middle component), splay the minimum of its
right subtree to become the new root and hang `radix`'s left subtree as
its left child (or, with no right subtree, let the left subtree become the
tree), free `radix`, and decrement the `unsigned` size field. -/
def splay_erase (ot : Option splay_Tree) (k : splay_Key) :
    Bool × Option splay_Satellite × Option splay_Tree :=
  match splay_find ot k with
  | (res, ot') =>
    if res.found = false then
      (false, none, ot')
    else
      match ot' with
      | some t =>
        match t.root with
        | .node ml _ _ mr =>
          match mr with
          | .nil =>
            (true, some res.sat, some ⟨ml, (t.size + (UINT_MOD - 1)) % UINT_MOD⟩)
          | .node a b c d =>
            match splay_min (some ⟨.node a b c d, t.size⟩) with
            | (_, some t2) =>
              match t2.root with
              | .node _ mk2 ms2 mr2 =>
                (true, some res.sat,
                  some ⟨.node ml mk2 ms2 mr2, (t.size + (UINT_MOD - 1)) % UINT_MOD⟩)
              | .nil => (true, some res.sat, some t2)  -- cannot occur
            | (_, none) => (true, some res.sat, none)  -- cannot occur
        | .nil => (false, none, ot')  -- cannot occur: found implies non-null root
      | none => (false, none, none)  -- cannot occur: found implies some handle

/-- Allocation oracle step for `node_ctor` / `malloc`: pop the outcome of
the next allocation; an exhausted oracle fails. -/
def allocStep : List Bool → Bool × List Bool
  | [] => (false, [])
  | b :: rest => (b, rest)

/-- The source's `copy_helper`: postorder deep copy of a subtree, threading the
allocation oracle.  On any failure all nodes already allocated for this
operation are released (implicit in the functional model) and `none` is
returned; the write parameter `*no` is only null-initialized on the path
where `node_ctor` itself fails, but every failure path leaves the
destination root slot null because it was null at entry. -/
def copy_helper : STree → List Bool → Option STree × List Bool
  | .nil, a => (some .nil, a)
  | .node ni_l x s ni_r, a =>
    match copy_helper ni_l a with
    | (none, a') => (none, a')
    | (some l, a') =>
      match copy_helper ni_r a' with
      | (none, a'') => (none, a'')  -- releases l
      | (some r, a'') =>
        match allocStep a'' with
        | (false, rest) => (none, rest)  -- releases l and r
        | (true, rest) => (some (.node l x s r), rest)

/-- The source's `splay_tree_copy`: deep-copy `ti` into the empty tree `to`.  The
destination must have a null root; the size field is copied over before
the clone runs, and is not reset on a failed clone. -/
def splay_tree_copy (ti tout : splay_Tree) (a : List Bool) :
    Bool × splay_Tree × List Bool :=
  if tout.root ≠ .nil then
    (false, tout, a)
  else
    match copy_helper ti.root a with
    | (none, a') => (false, ⟨.nil, ti.size⟩, a')
    | (some rt, a') => (true, ⟨rt, ti.size⟩, a')

/-- The source's `splay_tree_move`: constant-time transfer of root and size from `ti`
to the empty tree `to`. -/
def splay_tree_move (ti tout : splay_Tree) :
    Bool × splay_Tree × splay_Tree :=
  if tout.root ≠ .nil then
    (false, ti, tout)
  else
    (true, ⟨.nil, 0⟩, ⟨ti.root, ti.size⟩)

/-- The source's `splay_tree_clear`: release every node (postorder, no observable
effect functionally) and reset to the empty state. -/
def splay_tree_clear (_t : splay_Tree) : Bool × splay_Tree :=
  (true, ⟨.nil, 0⟩)

/-- The source's `splay_nodecount`: count the reachable nodes, linear time. -/
def splay_nodecount : STree → Nat
  | .nil => 0
  | .node l _ _ r => 1 + splay_nodecount l + splay_nodecount r

/-- The source's `breaks_bst_property`: does some node's key fall outside the bounding
interval `[minkey, maxkey]` implied by its ancestors?  Range propagation
from the root exactly as in the source: a node fails if
`LESSKEY(t, minkey) || KEYLESS(maxkey, t)`. -/
def breaks_bst_property (t : STree) (minkey maxkey : splay_Key) : Bool :=
  match t with
  | .nil => false
  | .node l x _ r =>
    if x < minkey ∨ maxkey < x then true
    else breaks_bst_property l minkey x || breaks_bst_property r x maxkey

/-- The source's `splay_size_failure`: check the size field against the actual node
count and against root nullity. -/
def splay_size_failure (t : splay_Tree) : Bool :=
  if t.root ≠ .nil ∧ t.size = 0 then true
  else if t.root = .nil ∧ t.size ≠ 0 then true
  else if t.size ≠ splay_nodecount t.root then true
  else false

/-- The source's `splay_health_check`: pass/fail verdict on the tree's invariants (the
diagnostic message written to `buf` is not modelled).  A NULL handle and
the empty tree pass trivially; otherwise the size check runs first, then
the BST range check from `[INT_MIN, INT_MAX]`. -/
def splay_health_check (ot : Option splay_Tree) : Bool :=
  match ot with
  | none => true
  | some t =>
    if t.size = 0 ∧ t.root = .nil then true
    else if splay_size_failure t then false
    else if breaks_bst_property t.root INT_MIN INT_MAX then false
    else true

/-!  Derived observation functions and specification-level predicates. -/

/-- The inorder list of (key, satellite) records stored in a subtree.  Two
trees hold the same multiset of records iff these lists are permutations;
top-down splaying in fact preserves this list exactly. -/
def recordList : STree → List (splay_Key × splay_Satellite)
  | .nil => []
  | .node l x s r => recordList l ++ (x, s) :: recordList r

/-- The inorder list of keys stored in a subtree. -/
def keyList (t : STree) : List splay_Key := (recordList t).map Prod.fst

/-- Key of the root node; 0 for the empty tree. -/
def rootKey : STree → splay_Key
  | .nil => 0
  | .node _ x _ _ => x

/-- Satellite of the root node; `none` for the empty tree. -/
def rootSat : STree → splay_Satellite
  | .nil => none
  | .node _ _ s _ => s

/-- Do all keys of the subtree satisfy `p`? -/
def allTreeKeys (p : splay_Key → Bool) : STree → Bool
  | .nil => true
  | .node l x _ r => p x && allTreeKeys p l && allTreeKeys p r

/-- The BST-order invariant of the specification: at every reachable node,
every key in the left subtree is ≤ the node's key and the node's key is ≤
every key in the right subtree. -/
def isOrdered : STree → Bool
  | .nil => true
  | .node l x _ r =>
    allTreeKeys (· ≤ x) l && allTreeKeys (x ≤ ·) r && isOrdered l && isOrdered r

/-- Modelled from the spec: the key of the node that is last compared along
the search path for `k` (the standard binary-search descent: go right when
the node's key is less than `k`, left when `k` is less, stop on equality or
when the next child is absent).  Used to state the failed-search
splay-to-root property; meaningless (0) on an empty tree. -/
def specLastComparedKey (k : splay_Key) : STree → splay_Key
  | .nil => 0
  | .node lt x _ rt =>
    if x < k then
      match rt with
      | .nil => x
      | .node a b c d => specLastComparedKey k (.node a b c d)
    else if k < x then
      match lt with
      | .nil => x
      | .node a b c d => specLastComparedKey k (.node a b c d)
    else x

/-- The plain binary-search descent on the embedded tree: does the
comparison walk for `k` reach a node holding `k`?  This is the reference
description of which searches succeed; the splay loop returns exactly this
flag. -/
def specFound (k : splay_Key) : STree → Bool
  | .nil => false
  | .node lt x _ rt =>
    if x < k then specFound k rt
    else if k < x then specFound k lt
    else true

/-- One dictionary operation of the public interface, with the outcome of
`splay_insert`'s single allocation attached to the insert operation. -/
inductive SplayOp where
  | ins (k : splay_Key) (s : splay_Satellite) (alloc : Bool)
  | upd (k : splay_Key) (s : splay_Satellite)
  | er (k : splay_Key)
  | fnd (k : splay_Key)
  | mn
  | mx

/-- Apply one dictionary operation to an initialized (non-NULL) tree,
keeping the updated tree state. -/
def applyOp (t : splay_Tree) : SplayOp → splay_Tree
  | .ins k s a => (splay_insert a t k s).2
  | .upd k s => (splay_update t k s).2
  | .er k =>
    match (splay_erase (some t) k).2.2 with
    | some t' => t'
    | none => t
  | .fnd k =>
    match (splay_find (some t) k).2 with
    | some t' => t'
    | none => t
  | .mn =>
    match (splay_min (some t)).2 with
    | some t' => t'
    | none => t
  | .mx =>
    match (splay_max (some t)).2 with
    | some t' => t'
    | none => t

/-- Run a sequence of dictionary operations starting from the empty tree
produced by `splay_tree_empty_ctor`. -/
def runOps (ops : List SplayOp) : splay_Tree :=
  ops.foldl applyOp ⟨.nil, 0⟩

@[simp] theorem recordList_nil : recordList .nil = [] := rfl

@[simp] theorem recordList_node (l : STree) (x : splay_Key) (s : splay_Satellite)
    (r : STree) :
    recordList (.node l x s r) = recordList l ++ (x, s) :: recordList r := rfl

@[simp] theorem keyList_nil : keyList .nil = [] := rfl

@[simp] theorem keyList_node (l : STree) (x : splay_Key) (s : splay_Satellite)
    (r : STree) :
    keyList (.node l x s r) = keyList l ++ x :: keyList r := by
  simp [keyList]

@[simp] theorem recordList_graftRight (a b : STree) :
    recordList (graftRight a b) = recordList a ++ recordList b := by
  induction a with
  | nil => simp [graftRight]
  | node l x s r ihl ihr => simp [graftRight, ihr]

@[simp] theorem recordList_graftLeft (a b : STree) :
    recordList (graftLeft a b) = recordList b ++ recordList a := by
  induction a with
  | nil => simp [graftLeft]
  | node l x s r ihl ihr => simp [graftLeft, ihl]

@[simp] theorem keyList_graftRight (a b : STree) :
    keyList (graftRight a b) = keyList a ++ keyList b := by
  simp [keyList]

@[simp] theorem keyList_graftLeft (a b : STree) :
    keyList (graftLeft a b) = keyList b ++ keyList a := by
  simp [keyList]

@[simp] theorem recordList_update_left_tip (rem a : STree) (x : splay_Key)
    (s : splay_Satellite) (b : STree) :
    recordList (update_left_tip rem (.node a x s b))
      = recordList rem ++ recordList a ++ [(x, s)] := by
  simp [update_left_tip]

@[simp] theorem recordList_update_right_tip (rem a : STree) (x : splay_Key)
    (s : splay_Satellite) (b : STree) :
    recordList (update_right_tip rem (.node a x s b))
      = ((x, s) :: recordList b) ++ recordList rem := by
  simp [update_right_tip]

theorem allTreeKeys_iff (p : splay_Key → Bool) (t : STree) :
    allTreeKeys p t = true ↔ ∀ y ∈ keyList t, p y = true := by
  induction t with
  | nil => simp [allTreeKeys]
  | node l x s r ihl ihr =>
    simp only [allTreeKeys, Bool.and_eq_true, keyList_node, List.mem_append,
      List.mem_cons, ihl, ihr]
    constructor
    · rintro ⟨⟨hx, hl⟩, hr⟩ y (hy | hy | hy)
      · exact hl y hy
      · exact hy ▸ hx
      · exact hr y hy
    · intro h
      exact ⟨⟨h x (Or.inr (Or.inl rfl)), fun y hy => h y (Or.inl hy)⟩,
        fun y hy => h y (Or.inr (Or.inr hy))⟩

theorem isOrdered_iff_pairwise (t : STree) :
    isOrdered t = true ↔ List.Pairwise (· ≤ ·) (keyList t) := by
  induction t with
  | nil => simp [isOrdered]
  | node l x s r ihl ihr =>
    simp only [isOrdered, Bool.and_eq_true, ihl, ihr, keyList_node,
      List.pairwise_append, List.pairwise_cons, List.mem_cons,
      allTreeKeys_iff, decide_eq_true_eq]
    constructor
    · rintro ⟨⟨⟨hle, hge⟩, hl⟩, hr⟩
      refine ⟨hl, ⟨fun y hy => hge y hy, hr⟩, ?_⟩
      rintro a ha b (rfl | hb)
      · exact hle a ha
      · exact le_trans (hle a ha) (hge b hb)
    · rintro ⟨hl, ⟨hxr, hr⟩, hcross⟩
      refine ⟨⟨⟨fun y hy => hcross y hy x (Or.inl rfl), fun y hy => hxr y hy⟩, hl⟩, hr⟩

theorem ite_of_ge {α : Sort u} (x k : Int) (h : k ≤ x) {d : Decidable (x < k)}
    (p q : α) : (if x < k then p else q) = q := by
  rw [if_neg (not_lt.mpr h)]

theorem sasLoop_records (k : splay_Key) (l r t : STree) :
    recordList (sasLoop k l r t).1 ++ recordList (sasLoop k l r t).2.2.1
      ++ recordList (sasLoop k l r t).2.1
    = recordList l ++ recordList t ++ recordList r := by
  induction l, r, t using sasLoop.induct k
  all_goals rw [sasLoop.eq_def]
  all_goals simp_all [ite_of_ge, update_left_tip, update_right_tip, left_rot, right_rot]

theorem sasLoop_ne_nil (k : splay_Key) (l r t : STree) (ht : t ≠ .nil) :
    (sasLoop k l r t).2.2.1 ≠ .nil := by
  induction l, r, t using sasLoop.induct k
  all_goals rw [sasLoop.eq_def]
  all_goals simp_all [ite_of_ge]

theorem sasLoop_found_spec (k : splay_Key) (l r t : STree) :
    (sasLoop k l r t).2.2.2 = specFound k t := by
  induction l, r, t using sasLoop.induct k
  all_goals rw [sasLoop.eq_def]
  all_goals simp_all [ite_of_ge, specFound]

theorem specFound_mem (k : splay_Key) (t : STree)
    (hf : specFound k t = true) : k ∈ keyList t := by
  induction t with
  | nil => simp [specFound] at hf
  | node lt x s rt ihl ihr =>
    simp only [specFound] at hf
    by_cases h1 : x < k
    · simp only [if_pos h1] at hf
      simp [ihr hf]
    · by_cases h2 : k < x
      · rw [if_neg h1, if_pos h2] at hf
        simp [ihl hf]
      · have : x = k := by linarith
        simp [this]

theorem specFound_iff_mem (k : splay_Key) (t : STree) (ho : isOrdered t = true) :
    specFound k t = true ↔ k ∈ keyList t := by
  induction t with
  | nil => simp [specFound]
  | node lt x s rt ihl ihr =>
    simp only [isOrdered, Bool.and_eq_true, allTreeKeys_iff,
      decide_eq_true_eq] at ho
    obtain ⟨⟨⟨hle, hge⟩, hol⟩, hor⟩ := ho
    simp only [specFound, keyList_node, List.mem_append, List.mem_cons]
    by_cases h1 : x < k
    · rw [if_pos h1, ihr hor]
      constructor
      · exact fun h => Or.inr (Or.inr h)
      · rintro (hm | rfl | hm)
        · exact absurd (hle _ hm) (by linarith)
        · exact absurd h1 (by linarith)
        · exact hm
    · by_cases h2 : k < x
      · rw [if_neg h1, if_pos h2, ihl hol]
        constructor
        · exact fun h => Or.inl h
        · rintro (hm | rfl | hm)
          · exact hm
          · exact absurd h2 (by linarith)
          · exact absurd (hge _ hm) (by linarith)
      · have : x = k := by linarith
        simp [if_neg h1, if_neg h2, this]

theorem slck_lt_nil (k x : splay_Key) (s : splay_Satellite) (lt : STree)
    (h : x < k) : specLastComparedKey k (.node lt x s .nil) = x := by
  rw [specLastComparedKey.eq_def]
  simp [if_pos h]

theorem slck_lt_node (k x : splay_Key) (s : splay_Satellite) (lt a : STree)
    (b : splay_Key) (c : splay_Satellite) (d : STree) (h : x < k) :
    specLastComparedKey k (.node lt x s (.node a b c d))
      = specLastComparedKey k (.node a b c d) := by
  rw [specLastComparedKey.eq_def]
  simp [if_pos h]

theorem slck_gt_nil (k x : splay_Key) (s : splay_Satellite) (rt : STree)
    (h : k < x) : specLastComparedKey k (.node .nil x s rt) = x := by
  rw [specLastComparedKey.eq_def]
  simp [ite_of_ge x k (le_of_lt h), if_pos h]

theorem slck_gt_node (k x : splay_Key) (s : splay_Satellite) (rt a : STree)
    (b : splay_Key) (c : splay_Satellite) (d : STree) (h : k < x) :
    specLastComparedKey k (.node (.node a b c d) x s rt)
      = specLastComparedKey k (.node a b c d) := by
  rw [specLastComparedKey.eq_def]
  simp [ite_of_ge x k (le_of_lt h), if_pos h]

theorem sasLoop_rootKey_found (k : splay_Key) (l r t : STree)
    (hf : (sasLoop k l r t).2.2.2 = true) :
    rootKey (sasLoop k l r t).2.2.1 = k := by
  induction l, r, t using sasLoop.induct k
  all_goals rw [sasLoop.eq_def] at hf ⊢
  all_goals simp_all [ite_of_ge, rootKey]
  all_goals linarith

theorem sasLoop_rootKey_notfound (k : splay_Key) (l r t : STree) (ht : t ≠ .nil)
    (hf : (sasLoop k l r t).2.2.2 = false) :
    rootKey (sasLoop k l r t).2.2.1 = specLastComparedKey k t := by
  induction l, r, t using sasLoop.induct k
  all_goals rw [sasLoop.eq_def] at hf ⊢
  all_goals
    simp_all [ite_of_ge, rootKey, slck_lt_nil, slck_lt_node, slck_gt_nil,
      slck_gt_node]

theorem sas_records (t : STree) (k : splay_Key) :
    recordList (search_and_splay t k).1 = recordList t := by
  cases t with
  | nil => rfl
  | node lt x s rt =>
    have h := sasLoop_records k .nil .nil (.node lt x s rt)
    have hne := sasLoop_ne_nil k .nil .nil (.node lt x s rt) (by simp)
    rcases hsl : sasLoop k .nil .nil (.node lt x s rt) with ⟨l', r', m, f⟩
    rw [hsl] at h hne
    cases m with
    | nil => simp at hne
    | node ml mx ms mr =>
      simp only [search_and_splay, hsl]
      simp at h ⊢
      simpa using h

theorem sas_found_spec (t : STree) (k : splay_Key) :
    (search_and_splay t k).2 = specFound k t := by
  cases t with
  | nil => rfl
  | node lt x s rt =>
    have h := sasLoop_found_spec k .nil .nil (.node lt x s rt)
    have hne := sasLoop_ne_nil k .nil .nil (.node lt x s rt) (by simp)
    rcases hsl : sasLoop k .nil .nil (.node lt x s rt) with ⟨l', r', m, f⟩
    rw [hsl] at h hne
    cases m with
    | nil => simp at hne
    | node ml mx ms mr => simpa [search_and_splay, hsl] using h

theorem sas_ne_nil (t : STree) (k : splay_Key) (ht : t ≠ .nil) :
    (search_and_splay t k).1 ≠ .nil := by
  cases t with
  | nil => exact absurd rfl ht
  | node lt x s rt =>
    have hne := sasLoop_ne_nil k .nil .nil (.node lt x s rt) (by simp)
    rcases hsl : sasLoop k .nil .nil (.node lt x s rt) with ⟨l', r', m, f⟩
    rw [hsl] at hne
    cases m with
    | nil => simp at hne
    | node ml mx ms mr => simp [search_and_splay, hsl]

theorem sas_rootKey_found (t : STree) (k : splay_Key)
    (hf : (search_and_splay t k).2 = true) :
    rootKey (search_and_splay t k).1 = k := by
  cases t with
  | nil => simp [search_and_splay] at hf
  | node lt x s rt =>
    have h := sasLoop_rootKey_found k .nil .nil (.node lt x s rt)
    have hne := sasLoop_ne_nil k .nil .nil (.node lt x s rt) (by simp)
    rcases hsl : sasLoop k .nil .nil (.node lt x s rt) with ⟨l', r', m, f⟩
    rw [hsl] at h hne
    cases m with
    | nil => simp at hne
    | node ml mx ms mr =>
      simp [search_and_splay, hsl] at hf ⊢
      simpa [rootKey, hf] using h

theorem sas_rootKey_notfound (t : STree) (k : splay_Key) (ht : t ≠ .nil)
    (hf : (search_and_splay t k).2 = false) :
    rootKey (search_and_splay t k).1 = specLastComparedKey k t := by
  cases t with
  | nil => exact absurd rfl ht
  | node lt x s rt =>
    have h := sasLoop_rootKey_notfound k .nil .nil (.node lt x s rt) (by simp)
    have hne := sasLoop_ne_nil k .nil .nil (.node lt x s rt) (by simp)
    rcases hsl : sasLoop k .nil .nil (.node lt x s rt) with ⟨l', r', m, f⟩
    rw [hsl] at h hne
    cases m with
    | nil => simp at hne
    | node ml mx ms mr =>
      simp [search_and_splay, hsl] at hf ⊢
      simpa [rootKey, hf] using h

theorem keyList_eq_of_recordList_eq {a b : STree}
    (h : recordList a = recordList b) : keyList a = keyList b := by
  simp [keyList, h]

theorem sas_ordered (t : STree) (k : splay_Key) (ho : isOrdered t = true) :
    isOrdered (search_and_splay t k).1 = true := by
  rw [isOrdered_iff_pairwise] at ho ⊢
  rw [keyList_eq_of_recordList_eq (sas_records t k)]
  exact ho

@[simp] theorem keyList_update_left_tip (rem a : STree) (x : splay_Key)
    (s : splay_Satellite) (b : STree) :
    keyList (update_left_tip rem (.node a x s b))
      = keyList rem ++ keyList a ++ [x] := by
  simp [keyList, update_left_tip]

@[simp] theorem keyList_update_right_tip (rem a : STree) (x : splay_Key)
    (s : splay_Satellite) (b : STree) :
    keyList (update_right_tip rem (.node a x s b))
      = (x :: keyList b) ++ keyList rem := by
  simp [keyList, update_right_tip]

theorem isOrdered_left {l : STree} {x : splay_Key} {s : splay_Satellite}
    {r : STree} (h : isOrdered (.node l x s r) = true) : isOrdered l = true := by
  simp only [isOrdered, Bool.and_eq_true] at h
  exact h.1.2

theorem isOrdered_right {l : STree} {x : splay_Key} {s : splay_Satellite}
    {r : STree} (h : isOrdered (.node l x s r) = true) : isOrdered r = true := by
  simp only [isOrdered, Bool.and_eq_true] at h
  exact h.2

theorem isOrdered_keys_left {l : STree} {x : splay_Key} {s : splay_Satellite}
    {r : STree} (h : isOrdered (.node l x s r) = true) :
    ∀ y ∈ keyList l, y ≤ x := by
  simp only [isOrdered, Bool.and_eq_true, allTreeKeys_iff, decide_eq_true_eq] at h
  exact h.1.1.1

theorem isOrdered_keys_right {l : STree} {x : splay_Key} {s : splay_Satellite}
    {r : STree} (h : isOrdered (.node l x s r) = true) :
    ∀ y ∈ keyList r, x ≤ y := by
  simp only [isOrdered, Bool.and_eq_true, allTreeKeys_iff, decide_eq_true_eq] at h
  exact h.1.1.2

theorem iasLoop_records (k : splay_Key) (l r t : STree) :
    recordList (iasLoop k l r t).1 ++ recordList (iasLoop k l r t).2
      = recordList l ++ recordList t ++ recordList r := by
  induction l, r, t using iasLoop.induct k
  all_goals rw [iasLoop.eq_def]
  all_goals simp_all [ite_of_ge, update_left_tip, update_right_tip, left_rot, right_rot]

theorem iasLoop_bounds (k : splay_Key) (l r t : STree) (ho : isOrdered t = true)
    (hl : ∀ y ∈ keyList l, y < k) (hr : ∀ y ∈ keyList r, k ≤ y) :
    (∀ y ∈ keyList (iasLoop k l r t).1, y < k) ∧
    (∀ y ∈ keyList (iasLoop k l r t).2, k ≤ y) := by
  induction l, r, t using iasLoop.induct k with
  | case1 l r =>
    rw [iasLoop.eq_def]
    exact ⟨hl, hr⟩
  | case2 l r lt x s hx =>
    rw [iasLoop.eq_def]
    simp only [if_pos hx]
    have h1 := isOrdered_keys_left ho
    refine ⟨?_, hr⟩
    intro y hy
    simp only [keyList_update_left_tip, List.mem_append, List.mem_singleton,
      or_assoc] at hy
    rcases hy with hy | hy | rfl
    · exact hl y hy
    · have := h1 y hy
      linarith
    · exact hx
  | case3 l r lt x s hx a a1 a2 a3 ha ih =>
    rw [iasLoop.eq_def]
    simp only [if_pos hx, if_pos ha]
    have h1 := isOrdered_keys_left ho
    have hR := isOrdered_right ho
    have h4 := isOrdered_keys_left hR
    apply ih (isOrdered_right hR)
    · intro y hy
      simp only [update_left_tip, left_rot, keyList_graftRight, keyList_node,
        keyList_nil, List.mem_append, List.mem_cons, List.mem_singleton,
        List.not_mem_nil, or_false, or_assoc] at hy
      rcases hy with hy | hy | rfl | hy | rfl
      · exact hl y hy
      · have := h1 y hy
        linarith
      · exact hx
      · have := h4 y hy
        linarith
      · exact ha
    · exact hr
  | case4 l r lt x s hx a a1 a2 a3 ha ih =>
    rw [iasLoop.eq_def]
    simp only [if_pos hx, if_neg ha]
    have h1 := isOrdered_keys_left ho
    have hR := isOrdered_right ho
    have h5 := isOrdered_keys_right hR
    apply ih (isOrdered_left hR)
    · intro y hy
      simp only [update_left_tip, keyList_graftRight, keyList_node,
        keyList_nil, List.mem_append, List.mem_singleton, or_assoc] at hy
      rcases hy with hy | hy | rfl
      · exact hl y hy
      · have := h1 y hy
        linarith
      · exact hx
    · intro y hy
      simp only [update_right_tip, keyList_graftLeft, keyList_node,
        keyList_nil, List.nil_append, List.mem_append, List.mem_cons,
        or_assoc] at hy
      rcases hy with rfl | hy | hy
      · linarith
      · have := h5 y hy
        linarith
      · exact hr y hy
  | case5 l r x s rt hx =>
    rw [iasLoop.eq_def]
    simp only [if_neg hx]
    have h2 := isOrdered_keys_right ho
    refine ⟨hl, ?_⟩
    intro y hy
    simp only [keyList_update_right_tip, List.mem_append, List.mem_cons,
      or_assoc] at hy
    rcases hy with rfl | hy | hy
    · linarith
    · have := h2 y hy
      linarith
    · exact hr y hy
  | case6 l r x s rt hx a a1 a2 a3 ha ih =>
    rw [iasLoop.eq_def]
    simp only [if_neg hx, if_pos ha]
    have h2 := isOrdered_keys_right ho
    have hL := isOrdered_left ho
    have h4 := isOrdered_keys_left hL
    apply ih (isOrdered_right hL)
    · intro y hy
      simp only [update_left_tip, keyList_graftRight, keyList_node,
        keyList_nil, List.mem_append, List.mem_singleton, or_assoc] at hy
      rcases hy with hy | hy | rfl
      · exact hl y hy
      · have := h4 y hy
        linarith
      · exact ha
    · intro y hy
      simp only [update_right_tip, keyList_graftLeft, keyList_node,
        keyList_nil, List.nil_append, List.mem_append, List.mem_cons,
        or_assoc] at hy
      rcases hy with rfl | hy | hy
      · linarith
      · have := h2 y hy
        linarith
      · exact hr y hy
  | case7 l r x s rt hx a a1 a2 a3 ha ih =>
    rw [iasLoop.eq_def]
    simp only [if_neg hx, if_neg ha]
    have h2 := isOrdered_keys_right ho
    have hL := isOrdered_left ho
    have h5 := isOrdered_keys_right hL
    apply ih (isOrdered_left hL)
    · exact hl
    · intro y hy
      simp only [update_right_tip, right_rot, keyList_graftLeft, keyList_node,
        keyList_nil, List.nil_append, List.mem_append, List.mem_cons,
        or_assoc] at hy
      rcases hy with rfl | hy | rfl | hy | hy
      · linarith
      · have := h5 y hy
        linarith
      · linarith
      · have := h2 y hy
        linarith
      · exact hr y hy

theorem pairwise_append_middle (A B : List splay_Key) (k : splay_Key)
    (h : List.Pairwise (· ≤ ·) (A ++ B)) (hA : ∀ a ∈ A, a < k)
    (hB : ∀ b ∈ B, k ≤ b) :
    List.Pairwise (· ≤ ·) (A ++ k :: B) := by
  rw [List.pairwise_append] at h ⊢
  obtain ⟨pA, pB, cross⟩ := h
  refine ⟨pA, ?_, ?_⟩
  · rw [List.pairwise_cons]
    exact ⟨hB, pB⟩
  · intro a ha b hb
    rcases List.mem_cons.mp hb with rfl | hb
    · exact le_of_lt (hA a ha)
    · exact cross a ha b hb

theorem insert_and_splay_eq (lt : STree) (x : splay_Key) (s0 : splay_Satellite)
    (rt : STree) (k : splay_Key) (s : splay_Satellite) :
    insert_and_splay (.node lt x s0 rt) k s
      = .node (iasLoop k .nil .nil (.node lt x s0 rt)).1 k s
          (iasLoop k .nil .nil (.node lt x s0 rt)).2 := rfl

theorem insert_and_splay_records (t : STree) (k : splay_Key)
    (s : splay_Satellite) :
    ∃ L R, insert_and_splay t k s = .node L k s R ∧
      recordList L ++ recordList R = recordList t := by
  cases t with
  | nil => exact ⟨.nil, .nil, rfl, rfl⟩
  | node lt x s0 rt =>
    refine ⟨_, _, insert_and_splay_eq lt x s0 rt k s, ?_⟩
    have h := iasLoop_records k .nil .nil (.node lt x s0 rt)
    simpa using h

theorem insert_and_splay_ordered (t : STree) (k : splay_Key)
    (s : splay_Satellite) (ho : isOrdered t = true) :
    isOrdered (insert_and_splay t k s) = true := by
  cases t with
  | nil => rfl
  | node lt x s0 rt =>
    rw [insert_and_splay_eq lt x s0 rt k s]
    rw [isOrdered_iff_pairwise]
    have hrec := iasLoop_records k .nil .nil (.node lt x s0 rt)
    have hb := iasLoop_bounds k .nil .nil (.node lt x s0 rt) ho
      (by simp) (by simp)
    rw [isOrdered_iff_pairwise] at ho
    simp only [keyList_node]
    apply pairwise_append_middle _ _ _ _ hb.1 hb.2
    have hkeys : keyList (iasLoop k .nil .nil (.node lt x s0 rt)).1
        ++ keyList (iasLoop k .nil .nil (.node lt x s0 rt)).2
        = keyList (.node lt x s0 rt) := by
      simp only [keyList, ← List.map_append]
      congr 1
      simpa using hrec
    rw [hkeys]
    exact ho

theorem filter_partition {α : Type} (p : α → Bool) (A B : List α)
    (hA : ∀ a ∈ A, p a = true) (hB : ∀ b ∈ B, p b = false) :
    (A ++ B).filter p = A ∧ (A ++ B).filter (fun y => !(p y)) = B := by
  constructor
  · rw [List.filter_append, List.filter_eq_self.mpr hA,
      List.filter_eq_nil_iff.mpr ?_, List.append_nil]
    intro b hb
    simp [hB b hb]
  · rw [List.filter_append, List.filter_eq_nil_iff.mpr ?_,
      List.filter_eq_self.mpr ?_, List.nil_append]
    · intro b hb
      simp [hB b hb]
    · intro a ha
      simp [hA a ha]

theorem insert_and_splay_partition (t : STree) (k : splay_Key)
    (s : splay_Satellite) (ho : isOrdered t = true) :
    ∃ L R, insert_and_splay t k s = .node L k s R ∧
      recordList L = (recordList t).filter (fun p => decide (p.1 < k)) ∧
      recordList R = (recordList t).filter (fun p => !(decide (p.1 < k))) := by
  cases t with
  | nil => exact ⟨.nil, .nil, rfl, rfl, rfl⟩
  | node lt x s0 rt =>
    refine ⟨_, _, insert_and_splay_eq lt x s0 rt k s, ?_⟩
    have hrec : recordList (iasLoop k .nil .nil (.node lt x s0 rt)).1
        ++ recordList (iasLoop k .nil .nil (.node lt x s0 rt)).2
        = recordList (.node lt x s0 rt) := by
      simpa using iasLoop_records k .nil .nil (.node lt x s0 rt)
    have hb := iasLoop_bounds k .nil .nil (.node lt x s0 rt) ho
      (by simp) (by simp)
    have hfil := filter_partition (fun p => decide (p.1 < k))
      (recordList (iasLoop k .nil .nil (.node lt x s0 rt)).1)
      (recordList (iasLoop k .nil .nil (.node lt x s0 rt)).2)
      ?_ ?_
    · rw [hrec] at hfil
      exact ⟨hfil.1.symm, hfil.2.symm⟩
    · intro a ha
      simp only [decide_eq_true_eq]
      exact hb.1 a.1 (List.mem_map_of_mem Prod.fst ha)
    · intro b hb2
      simp only [decide_eq_false_iff_not, not_lt]
      exact hb.2 b.1 (List.mem_map_of_mem Prod.fst hb2)

theorem minLoop_records (r t : STree) :
    recordList (minLoop r t).2 ++ recordList (minLoop r t).1
      = recordList t ++ recordList r := by
  induction r, t using minLoop.induct
  all_goals rw [minLoop.eq_def]
  all_goals simp_all [update_right_tip, right_rot]

theorem minLoop_shape (r t : STree) (ht : t ≠ .nil) :
    ∃ mx ms mr, (minLoop r t).2 = .node .nil mx ms mr := by
  induction r, t using minLoop.induct
  all_goals rw [minLoop.eq_def]
  all_goals simp_all

theorem maxLoop_records (l t : STree) :
    recordList (maxLoop l t).1 ++ recordList (maxLoop l t).2
      = recordList l ++ recordList t := by
  induction l, t using maxLoop.induct
  all_goals rw [maxLoop.eq_def]
  all_goals simp_all [update_left_tip, left_rot]

theorem maxLoop_shape (l t : STree) (ht : t ≠ .nil) :
    ∃ ml mx ms, (maxLoop l t).2 = .node ml mx ms .nil := by
  induction l, t using maxLoop.induct
  all_goals rw [maxLoop.eq_def]
  all_goals simp_all

theorem splay_find_notfound (t : splay_Tree) (k : splay_Key)
    (hf : (search_and_splay t.root k).2 = false) :
    splay_find (some t) k
      = (SPLAY_BLANK_RESULT, some ⟨(search_and_splay t.root k).1, t.size⟩) := by
  rcases hsas : search_and_splay t.root k with ⟨root', found⟩
  rw [hsas] at hf
  simp only at hf
  subst hf
  simp [splay_find, hsas]

theorem splay_find_found (t : splay_Tree) (k : splay_Key)
    (hf : (search_and_splay t.root k).2 = true) :
    splay_find (some t) k
      = (⟨true, k, rootSat (search_and_splay t.root k).1⟩,
          some ⟨(search_and_splay t.root k).1, t.size⟩) := by
  have hne : (search_and_splay t.root k).1 ≠ .nil := by
    cases hroot : t.root with
    | nil =>
      rw [hroot] at hf
      simp [search_and_splay] at hf
    | node lt x s rt =>
      rw [← hroot]
      exact sas_ne_nil t.root k (by rw [hroot]; simp)
  rcases hsas : search_and_splay t.root k with ⟨root', found⟩
  rw [hsas] at hf hne
  simp only at hf hne
  subst hf
  cases root' with
  | nil => exact absurd rfl hne
  | node ml mx ms mr => simp [splay_find, hsas, rootSat]

theorem splay_min_spec (t : splay_Tree) (ht : t.root ≠ .nil) :
    ∃ mx ms R,
      splay_min (some t) = (⟨true, mx, ms⟩, some ⟨.node .nil mx ms R, t.size⟩) ∧
      recordList (.node .nil mx ms R) = recordList t.root := by
  cases hroot : t.root with
  | nil => exact absurd hroot ht
  | node lt x s rt =>
    have hrec := minLoop_records .nil (.node lt x s rt)
    obtain ⟨mx, ms, mr, hm⟩ := minLoop_shape .nil (.node lt x s rt) (by simp)
    rcases hml : minLoop .nil (.node lt x s rt) with ⟨r', m⟩
    rw [hml] at hrec hm
    simp only at hm
    subst hm
    refine ⟨mx, ms, graftLeft r' mr, ?_, ?_⟩
    · simp [splay_min, hroot, hml]
    · simp at hrec ⊢
      simpa using hrec

theorem splay_max_spec (t : splay_Tree) (ht : t.root ≠ .nil) :
    ∃ L mx ms,
      splay_max (some t) = (⟨true, mx, ms⟩, some ⟨.node L mx ms .nil, t.size⟩) ∧
      recordList (.node L mx ms .nil) = recordList t.root := by
  cases hroot : t.root with
  | nil => exact absurd hroot ht
  | node lt x s rt =>
    have hrec := maxLoop_records .nil (.node lt x s rt)
    obtain ⟨ml, mx, ms, hm⟩ := maxLoop_shape .nil (.node lt x s rt) (by simp)
    rcases hml : maxLoop .nil (.node lt x s rt) with ⟨l', m⟩
    rw [hml] at hrec hm
    simp only at hm
    subst hm
    refine ⟨graftRight l' ml, mx, ms, ?_, ?_⟩
    · simp [splay_max, hroot, hml]
    · simp at hrec ⊢
      simpa using hrec

theorem splay_erase_notfound (t : splay_Tree) (k : splay_Key)
    (hf : (search_and_splay t.root k).2 = false) :
    splay_erase (some t) k
      = (false, none, some ⟨(search_and_splay t.root k).1, t.size⟩) := by
  simp [splay_erase, splay_find_notfound t k hf, SPLAY_BLANK_RESULT]

theorem splay_erase_found (t : splay_Tree) (k : splay_Key)
    (hf : (search_and_splay t.root k).2 = true) :
    ∃ ml ms mr t',
      (search_and_splay t.root k).1 = .node ml k ms mr ∧
      splay_erase (some t) k = (true, some ms, some t') ∧
      recordList t'.root = recordList ml ++ recordList mr ∧
      t'.size = (t.size + (UINT_MOD - 1)) % UINT_MOD := by
  have hfind := splay_find_found t k hf
  have hne : (search_and_splay t.root k).1 ≠ .nil := by
    cases hroot : t.root with
    | nil =>
      rw [hroot] at hf
      simp [search_and_splay] at hf
    | node lt x s rt =>
      rw [← hroot]
      exact sas_ne_nil t.root k (by rw [hroot]; simp)
  have hkey := sas_rootKey_found t.root k hf
  rcases hsas : search_and_splay t.root k with ⟨root', found⟩
  rw [hsas] at hfind hne hkey
  simp only at hfind hne hkey
  cases root' with
  | nil => exact absurd rfl hne
  | node ml mx ms mr =>
    simp only [rootKey] at hkey
    subst hkey
    refine ⟨ml, ms, mr, ?_⟩
    cases mr with
    | nil =>
      refine ⟨⟨ml, (t.size + (UINT_MOD - 1)) % UINT_MOD⟩, rfl, ?_, by simp, rfl⟩
      simp [splay_erase, hfind, rootSat]
    | node a b c d =>
      obtain ⟨mx2, ms2, R, hmin, hminrec⟩ :=
        splay_min_spec ⟨.node a b c d, t.size⟩ (by simp)
      refine ⟨⟨.node ml mx2 ms2 R, (t.size + (UINT_MOD - 1)) % UINT_MOD⟩,
        rfl, ?_, ?_, rfl⟩
      · simp [splay_erase, hfind, rootSat, hmin]
      · simp only [recordList_node] at hminrec ⊢
        simp at hminrec ⊢
        exact hminrec

theorem pairwise_of_middle (A B : List splay_Key) (k : splay_Key)
    (h : List.Pairwise (· ≤ ·) (A ++ k :: B)) :
    List.Pairwise (· ≤ ·) (A ++ B) :=
  h.sublist (List.Sublist.append_left (List.sublist_cons_self k B) A)

@[simp] theorem keyList_setRootSat (u : STree) (s : splay_Satellite) :
    keyList (setRootSat u s) = keyList u := by
  cases u <;> simp [setRootSat]

theorem splay_update_ordered (t : splay_Tree) (k : splay_Key)
    (s : splay_Satellite) (ho : isOrdered t.root = true) :
    isOrdered (splay_update t k s).2.root = true := by
  have hso := sas_ordered t.root k ho
  rcases hsas : search_and_splay t.root k with ⟨root', found⟩
  rw [hsas] at hso
  simp only at hso
  cases found with
  | false => simpa [splay_update, hsas] using hso
  | true =>
    simp only [splay_update, hsas, if_pos]
    rw [isOrdered_iff_pairwise] at hso ⊢
    simpa using hso

theorem splay_min_ordered (t : splay_Tree) (ho : isOrdered t.root = true) :
    ∀ t', (splay_min (some t)).2 = some t' → isOrdered t'.root = true := by
  intro t' h
  cases hroot : t.root with
  | nil =>
    rw [splay_min.eq_def] at h
    simp [hroot] at h
    rw [← h]
    simp [hroot, isOrdered]
  | node lt x s rt =>
    obtain ⟨mx, ms, R, hmin, hrec⟩ := splay_min_spec t (by rw [hroot]; simp)
    rw [hmin] at h
    simp only [Option.some.injEq] at h
    subst h
    rw [isOrdered_iff_pairwise]
    rw [isOrdered_iff_pairwise] at ho
    rw [keyList_eq_of_recordList_eq hrec]
    exact ho

theorem splay_max_ordered (t : splay_Tree) (ho : isOrdered t.root = true) :
    ∀ t', (splay_max (some t)).2 = some t' → isOrdered t'.root = true := by
  intro t' h
  cases hroot : t.root with
  | nil =>
    rw [splay_max.eq_def] at h
    simp [hroot] at h
    rw [← h]
    simp [hroot, isOrdered]
  | node lt x s rt =>
    obtain ⟨L, mx, ms, hmax, hrec⟩ := splay_max_spec t (by rw [hroot]; simp)
    rw [hmax] at h
    simp only [Option.some.injEq] at h
    subst h
    rw [isOrdered_iff_pairwise]
    rw [isOrdered_iff_pairwise] at ho
    rw [keyList_eq_of_recordList_eq hrec]
    exact ho

theorem splay_erase_ordered (t : splay_Tree) (k : splay_Key)
    (ho : isOrdered t.root = true) :
    ∀ t', (splay_erase (some t) k).2.2 = some t' → isOrdered t'.root = true := by
  intro t' h
  have hso := sas_ordered t.root k ho
  cases hf : (search_and_splay t.root k).2 with
  | false =>
    rw [splay_erase_notfound t k hf] at h
    simp only [Option.some.injEq] at h
    subst h
    exact hso
  | true =>
    obtain ⟨ml, ms, mr, t'', hsplit, herase, hrec, hsize⟩ :=
      splay_erase_found t k hf
    rw [herase] at h
    simp only [Option.some.injEq] at h
    subst h
    rw [isOrdered_iff_pairwise, keyList, hrec, List.map_append]
    rw [isOrdered_iff_pairwise, hsplit] at hso
    simp only [keyList_node] at hso
    exact pairwise_of_middle _ _ _ hso

theorem isOrdered_applyOp (t : splay_Tree) (op : SplayOp)
    (ho : isOrdered t.root = true) : isOrdered (applyOp t op).root = true := by
  cases op with
  | ins k s a =>
    cases a with
    | false => simpa [applyOp, splay_insert] using ho
    | true =>
      simp only [applyOp, splay_insert, if_pos]
      exact insert_and_splay_ordered t.root k s ho
  | upd k s => exact splay_update_ordered t k s ho
  | er k =>
    rcases h : (splay_erase (some t) k).2.2 with _ | t'
    · simpa [applyOp, h] using ho
    · have := splay_erase_ordered t k ho t' h
      simpa [applyOp, h] using this
  | fnd k =>
    rcases h : (splay_find (some t) k).2 with _ | t'
    · simpa [applyOp, h] using ho
    · cases hf : (search_and_splay t.root k).2 with
      | false =>
        rw [splay_find_notfound t k hf] at h
        simp only [Option.some.injEq] at h
        subst h
        have hso := sas_ordered t.root k ho
        simpa [applyOp, splay_find_notfound t k hf] using hso
      | true =>
        rw [splay_find_found t k hf] at h
        simp only [Option.some.injEq] at h
        subst h
        have hso := sas_ordered t.root k ho
        simpa [applyOp, splay_find_found t k hf] using hso
  | mn =>
    rcases h : (splay_min (some t)).2 with _ | t'
    · simpa [applyOp, h] using ho
    · have := splay_min_ordered t ho t' h
      simpa [applyOp, h] using this
  | mx =>
    rcases h : (splay_max (some t)).2 with _ | t'
    · simpa [applyOp, h] using ho
    · have := splay_max_ordered t ho t' h
      simpa [applyOp, h] using this

theorem isOrdered_foldl (ops : List SplayOp) :
    ∀ t : splay_Tree, isOrdered t.root = true →
      isOrdered (ops.foldl applyOp t).root = true := by
  induction ops with
  | nil => exact fun t ht => ht
  | cons op ops ih =>
    intro t ht
    exact ih (applyOp t op) (isOrdered_applyOp t op ht)

theorem rootKey_mem (t : STree) (ht : t ≠ .nil) : rootKey t ∈ keyList t := by
  cases t with
  | nil => exact absurd rfl ht
  | node l x s r => simp [rootKey]

theorem sas_at_root (L : STree) (k : splay_Key) (s : splay_Satellite)
    (R : STree) : search_and_splay (.node L k s R) k = (.node L k s R, true) := by
  rw [search_and_splay, sasLoop.eq_def]
  simp [graftRight, graftLeft]

theorem specFound_eq_false_of_not_mem (k : splay_Key) (t : STree)
    (h : k ∉ keyList t) : specFound k t = false := by
  cases hsf : specFound k t with
  | false => rfl
  | true => exact absurd (specFound_mem k t hsf) h

theorem erase_absent (t : splay_Tree) (k : splay_Key)
    (h : k ∉ keyList t.root) :
    splay_erase (some t) k
      = (false, none, some ⟨(search_and_splay t.root k).1, t.size⟩) ∧
    recordList (search_and_splay t.root k).1 = recordList t.root := by
  have hf : (search_and_splay t.root k).2 = false := by
    rw [sas_found_spec]
    exact specFound_eq_false_of_not_mem k t.root h
  exact ⟨splay_erase_notfound t k hf, sas_records t.root k⟩

theorem breaks_bst_iff (t : STree) :
    ∀ lo hi : splay_Key,
      breaks_bst_property t lo hi = false ↔
        (isOrdered t = true ∧ ∀ y ∈ keyList t, lo ≤ y ∧ y ≤ hi) := by
  induction t with
  | nil => simp [breaks_bst_property, isOrdered]
  | node l x s r ihl ihr =>
    intro lo hi
    rw [breaks_bst_property]
    by_cases hx : x < lo ∨ hi < x
    · simp only [if_pos hx, keyList_node, List.mem_append, List.mem_cons]
      constructor
      · intro h
        exact absurd h (by simp)
      · rintro ⟨ho, hb⟩
        have := hb x (by simp)
        rcases hx with hx | hx <;> linarith [this.1, this.2]
    · push_neg at hx
      simp only [if_neg (by push_neg; exact hx : ¬(x < lo ∨ hi < x)),
        Bool.or_eq_false_iff, ihl, ihr]
      constructor
      · rintro ⟨⟨hol, hbl⟩, hor, hbr⟩
        refine ⟨?_, ?_⟩
        · rw [isOrdered]
          simp only [Bool.and_eq_true, allTreeKeys_iff, decide_eq_true_eq]
          exact ⟨⟨⟨fun y hy => (hbl y hy).2, fun y hy => (hbr y hy).1⟩, hol⟩, hor⟩
        · intro y hy
          simp only [keyList_node, List.mem_append, List.mem_cons] at hy
          rcases hy with hy | rfl | hy
          · exact ⟨(hbl y hy).1, le_trans (hbl y hy).2 hx.2⟩
          · exact hx
          · exact ⟨le_trans hx.1 (hbr y hy).1, (hbr y hy).2⟩
      · rintro ⟨ho, hb⟩
        have hkl := isOrdered_keys_left ho
        have hkr := isOrdered_keys_right ho
        refine ⟨⟨isOrdered_left ho, ?_⟩, isOrdered_right ho, ?_⟩
        · intro y hy
          refine ⟨(hb y (by simp [hy])).1, hkl y hy⟩
        · intro y hy
          refine ⟨hkr y hy, (hb y (by simp [hy])).2⟩

theorem splay_nodecount_eq_length (t : STree) :
    splay_nodecount t = (recordList t).length := by
  induction t with
  | nil => rfl
  | node l x s r ihl ihr =>
    simp [splay_nodecount, ihl, ihr]
    linarith

theorem splay_size_failure_iff (t : splay_Tree) :
    splay_size_failure t = false ↔ t.size = splay_nodecount t.root := by
  rw [splay_size_failure]
  by_cases h1 : t.root ≠ .nil ∧ t.size = 0
  · simp only [if_pos h1]
    constructor
    · intro h
      exact absurd h (by simp)
    · intro h
      obtain ⟨hr, hs⟩ := h1
      cases hroot : t.root with
      | nil => exact absurd hroot hr
      | node a b c d =>
        rw [hroot] at h
        rw [splay_nodecount] at h
        omega
  · rw [if_neg h1]
    by_cases h2 : t.root = .nil ∧ t.size ≠ 0
    · simp only [if_pos h2]
      constructor
      · intro h
        exact absurd h (by simp)
      · intro h
        obtain ⟨hr, hs⟩ := h2
        rw [hr] at h
        exact absurd h (by simpa [splay_nodecount] using hs)
    · rw [if_neg h2]
      by_cases h3 : t.size ≠ splay_nodecount t.root
      · simp only [if_pos h3]
        constructor
        · intro h
          exact absurd h (by simp)
        · intro h
          exact absurd h h3
      · rw [if_neg h3]
        push_neg at h3
        simp [h3]

theorem splay_health_check_iff (t : splay_Tree)
    (hk : ∀ y ∈ keyList t.root, INT_MIN ≤ y ∧ y ≤ INT_MAX) :
    splay_health_check (some t) = true ↔
      (t.size = splay_nodecount t.root ∧ (t.size = 0 ↔ t.root = .nil) ∧
        isOrdered t.root = true) := by
  rw [splay_health_check]
  by_cases he : t.size = 0 ∧ t.root = .nil
  · rw [if_pos he]
    simp [he.1, he.2, splay_nodecount, isOrdered]
  · rw [if_neg he]
    cases hsf : splay_size_failure t with
    | true =>
      simp only [if_pos rfl]
      constructor
      · intro h
        exact absurd h (by simp)
      · rintro ⟨hc, _, _⟩
        rw [(splay_size_failure_iff t).mpr hc] at hsf
        exact absurd hsf (by simp)
    | false =>
      rw [if_neg (by simp)]
      have hc := (splay_size_failure_iff t).mp hsf
      cases hbr : breaks_bst_property t.root INT_MIN INT_MAX with
      | false =>
        rw [if_neg (by simp)]
        obtain ⟨ho, _⟩ := (breaks_bst_iff t.root INT_MIN INT_MAX).mp hbr
        simp only [true_iff]
        refine ⟨hc, ?_, ho⟩
        constructor
        · intro hs
          rw [hs] at hc
          cases hroot : t.root with
          | nil => rfl
          | node a b c d =>
            rw [hroot] at hc
            rw [splay_nodecount] at hc
            omega
        · intro hr
          rw [hr] at hc
          simpa [splay_nodecount] using hc
      | true =>
        simp only [if_pos rfl]
        constructor
        · intro h
          exact absurd h (by simp)
        · rintro ⟨_, _, ho⟩
          rw [(breaks_bst_iff t.root INT_MIN INT_MAX).mpr ⟨ho, hk⟩] at hbr
          exact absurd hbr (by simp)

/-- C1: for every sequence of dictionary operations (insert, update, erase,
find, min, max) starting from an empty tree, after each operation every
reachable node satisfies the BST-ordering property: every key in a node's
left subtree is ≤ the node's key and the node's key is ≤ every key in its
right subtree.  (Quantifying over all operation sequences covers the state
after every intermediate operation.) -/
theorem C1_bst_invariant (ops : List SplayOp) :
    isOrdered (runOps ops).root = true :=
  isOrdered_foldl ops ⟨.nil, 0⟩ rfl

/-- C2: the count invariant is violated by the allocation-failure path of
`splay_tree_copy`: copying a one-node source tree into an empty destination
with the single node allocation failing leaves the destination with a null
root but size 1 ≠ 0 reachable nodes, a state rejected by the code's own
`splay_health_check`. -/
theorem C2_copy_failure_count_bug :
    splay_tree_copy ⟨.node .nil 5 none .nil, 1⟩ ⟨.nil, 0⟩ [false]
      = (false, ⟨.nil, 1⟩, []) ∧
    (splay_tree_copy ⟨.node .nil 5 none .nil, 1⟩ ⟨.nil, 0⟩ [false]).2.1.size
      ≠ splay_nodecount (splay_tree_copy ⟨.node .nil 5 none .nil, 1⟩
          ⟨.nil, 0⟩ [false]).2.1.root ∧
    splay_health_check (some ⟨.nil, 1⟩) = false := by
  refine ⟨by decide, by decide, by decide⟩

/-- C3 (counterexample): erasing an absent key does NOT leave the tree
unchanged: on the tree built from inserting 1 then 2 (root 2 with left
child 1), `splay_erase` of the absent key 0 signals failure but reshapes
the tree (the failed search splays node 1 to the root). -/
theorem C3_counterexample :
    (splay_erase (some ⟨.node (.node .nil 1 none .nil) 2 none .nil, 2⟩) 0).1
      = false ∧
    (splay_erase (some ⟨.node (.node .nil 1 none .nil) 2 none .nil, 2⟩) 0).2.2
      ≠ some ⟨.node (.node .nil 1 none .nil) 2 none .nil, 2⟩ := by
  refine ⟨by decide, by decide⟩

/-- C3 (amended): for every initialized tree `t` and key `k` absent from
`t`, `splay_erase` signals failure (NotFound), writes nothing through the
satellite out-parameter, and leaves the size and the stored records
unchanged — but the shape may change (the failed find splays). -/
theorem C3_amended_erase_absent (t : splay_Tree) (k : splay_Key)
    (h : k ∉ keyList t.root) :
    (splay_erase (some t) k).1 = false ∧
    (splay_erase (some t) k).2.1 = none ∧
    ∃ t', (splay_erase (some t) k).2.2 = some t' ∧ t'.size = t.size ∧
      recordList t'.root = recordList t.root := by
  obtain ⟨he, hr⟩ := erase_absent t k h
  rw [he]
  exact ⟨rfl, rfl, ⟨_, rfl, rfl, hr⟩⟩

theorem C3_amended_witness :
    ((0 : splay_Key) ∉ keyList (STree.node (.node .nil 1 none .nil) 2 none .nil)) ∧
    ((splay_erase (some ⟨.node (.node .nil 1 none .nil) 2 none .nil, 2⟩) 0).1 = false ∧
     (splay_erase (some ⟨.node (.node .nil 1 none .nil) 2 none .nil, 2⟩) 0).2.1 = none ∧
     ∃ t', (splay_erase (some ⟨.node (.node .nil 1 none .nil) 2 none .nil, 2⟩) 0).2.2
         = some t' ∧
       t'.size = (⟨.node (.node .nil 1 none .nil) 2 none .nil, 2⟩ : splay_Tree).size ∧
       recordList t'.root
         = recordList (⟨.node (.node .nil 1 none .nil) 2 none .nil, 2⟩ : splay_Tree).root) :=
  ⟨by decide,
    C3_amended_erase_absent ⟨.node (.node .nil 1 none .nil) 2 none .nil, 2⟩ 0
      (by decide)⟩

/-- C4: on the allocation-failure path of `splay_tree_copy` (one-node
source, empty destination, the single node allocation fails) the call does
signal failure and does leave the destination root null, but the
destination size is left equal to the source size (1), not 0 as claimed:
the `to->size = ti->size` assignment made before the clone is never undone. -/
theorem C4_copy_failure_size_stale :
    splay_tree_copy ⟨.node .nil 5 none .nil, 1⟩ ⟨.nil, 0⟩ [false]
      = (false, ⟨.nil, 1⟩, []) ∧
    (splay_tree_copy ⟨.node .nil 5 none .nil, 1⟩ ⟨.nil, 0⟩ [false]).2.1.size
      ≠ 0 := by
  refine ⟨by decide, by decide⟩

/-- C5: on a non-empty BST-ordered tree, if some node holds `k` then
`splay_find` splays a node holding `k` to the root and returns found with
the root's key and satellite; if no node holds `k`, it returns not-found
and the node last compared along the failed search path is splayed to the
root — and that root key is a key actually present in the tree. -/
theorem C5_find_splay_to_root (t : splay_Tree) (k : splay_Key)
    (hne : t.root ≠ .nil) (ho : isOrdered t.root = true) :
    (k ∈ keyList t.root →
      ∃ t', splay_find (some t) k = (⟨true, k, rootSat t'.root⟩, some t') ∧
        rootKey t'.root = k) ∧
    (k ∉ keyList t.root →
      ∃ t', splay_find (some t) k = (SPLAY_BLANK_RESULT, some t') ∧
        rootKey t'.root = specLastComparedKey k t.root ∧
        rootKey t'.root ∈ keyList t.root) := by
  constructor
  · intro hmem
    have hf : (search_and_splay t.root k).2 = true := by
      rw [sas_found_spec]
      exact (specFound_iff_mem k t.root ho).mpr hmem
    exact ⟨⟨(search_and_splay t.root k).1, t.size⟩, splay_find_found t k hf,
      sas_rootKey_found t.root k hf⟩
  · intro hmem
    have hf : (search_and_splay t.root k).2 = false := by
      rw [sas_found_spec]
      exact specFound_eq_false_of_not_mem k t.root hmem
    refine ⟨⟨(search_and_splay t.root k).1, t.size⟩, splay_find_notfound t k hf,
      sas_rootKey_notfound t.root k hne hf, ?_⟩
    have hkeys : keyList (search_and_splay t.root k).1 = keyList t.root :=
      keyList_eq_of_recordList_eq (sas_records t.root k)
    rw [← hkeys]
    exact rootKey_mem _ (sas_ne_nil t.root k hne)

theorem C5_witness :
    ((⟨.node (.node .nil 1 none .nil) 2 (some 7) .nil, 2⟩ : splay_Tree).root
        ≠ .nil) ∧
    (isOrdered (⟨.node (.node .nil 1 none .nil) 2 (some 7) .nil, 2⟩
        : splay_Tree).root = true) ∧
    (((1 : splay_Key) ∈ keyList (⟨.node (.node .nil 1 none .nil) 2 (some 7) .nil, 2⟩
          : splay_Tree).root →
      ∃ t', splay_find (some ⟨.node (.node .nil 1 none .nil) 2 (some 7) .nil, 2⟩) 1
          = (⟨true, 1, rootSat t'.root⟩, some t') ∧ rootKey t'.root = 1) ∧
    ((1 : splay_Key) ∉ keyList (⟨.node (.node .nil 1 none .nil) 2 (some 7) .nil, 2⟩
          : splay_Tree).root →
      ∃ t', splay_find (some ⟨.node (.node .nil 1 none .nil) 2 (some 7) .nil, 2⟩) 1
          = (SPLAY_BLANK_RESULT, some t') ∧
        rootKey t'.root = specLastComparedKey 1
          (⟨.node (.node .nil 1 none .nil) 2 (some 7) .nil, 2⟩ : splay_Tree).root ∧
        rootKey t'.root ∈ keyList (⟨.node (.node .nil 1 none .nil) 2 (some 7) .nil, 2⟩
          : splay_Tree).root)) :=
  ⟨by decide, by decide,
    C5_find_splay_to_root ⟨.node (.node .nil 1 none .nil) 2 (some 7) .nil, 2⟩ 1
      (by decide) (by decide)⟩

/-- C6: on a BST-ordered tree, a successful `splay_insert` makes the newly
created node the root, with one child holding exactly the previously
existing records whose keys compare less than `k` and the other child
holding all remaining records (keys ≥ `k`, duplicates of `k` included),
increments the size by one, and returns success; with a failed allocation
it returns failure and leaves the tree untouched — so it fails only when
allocation fails. -/
theorem C6_insert_partitions (t : splay_Tree) (k : splay_Key)
    (s : splay_Satellite) (ho : isOrdered t.root = true)
    (hsz : t.size + 1 < UINT_MOD) :
    (∃ L R,
      splay_insert true t k s = (true, ⟨.node L k s R, t.size + 1⟩) ∧
      recordList L = (recordList t.root).filter (fun p => decide (p.1 < k)) ∧
      recordList R = (recordList t.root).filter (fun p => !(decide (p.1 < k)))) ∧
    splay_insert false t k s = (false, t) := by
  obtain ⟨L, R, hins, hfl, hfr⟩ := insert_and_splay_partition t.root k s ho
  refine ⟨⟨L, R, ?_, hfl, hfr⟩, rfl⟩
  simp [splay_insert, hins, Nat.mod_eq_of_lt hsz]

theorem C6_witness :
    (isOrdered (⟨.node (.node .nil 1 none .nil) 2 (some 7) .nil, 2⟩
        : splay_Tree).root = true) ∧
    ((⟨.node (.node .nil 1 none .nil) 2 (some 7) .nil, 2⟩ : splay_Tree).size + 1
        < UINT_MOD) ∧
    ((∃ L R,
      splay_insert true ⟨.node (.node .nil 1 none .nil) 2 (some 7) .nil, 2⟩ 2 (some 9)
        = (true, ⟨.node L 2 (some 9) R,
            (⟨.node (.node .nil 1 none .nil) 2 (some 7) .nil, 2⟩ : splay_Tree).size + 1⟩) ∧
      recordList L = (recordList (⟨.node (.node .nil 1 none .nil) 2 (some 7) .nil, 2⟩
          : splay_Tree).root).filter (fun p => decide (p.1 < 2)) ∧
      recordList R = (recordList (⟨.node (.node .nil 1 none .nil) 2 (some 7) .nil, 2⟩
          : splay_Tree).root).filter (fun p => !(decide (p.1 < 2)))) ∧
    splay_insert false ⟨.node (.node .nil 1 none .nil) 2 (some 7) .nil, 2⟩ 2 (some 9)
      = (false, ⟨.node (.node .nil 1 none .nil) 2 (some 7) .nil, 2⟩)) :=
  ⟨by decide, by decide,
    C6_insert_partitions ⟨.node (.node .nil 1 none .nil) 2 (some 7) .nil, 2⟩ 2
      (some 9) (by decide) (by decide)⟩

/-- C7: for a tree without key `k`, `splay_insert (k, s)` followed
immediately by `splay_find k` reports found with satellite `s`; the
subsequent `splay_erase k` succeeds handing back `s` through the
out-parameter, and after it `splay_find k` reports not-found. -/
theorem C7_round_trip (t : splay_Tree) (k : splay_Key) (s : splay_Satellite)
    (h : k ∉ keyList t.root) :
    ∃ t1 t2 t3,
      splay_insert true t k s = (true, t1) ∧
      splay_find (some t1) k = (⟨true, k, s⟩, some t2) ∧
      (splay_erase (some t2) k).1 = true ∧
      (splay_erase (some t2) k).2.1 = some s ∧
      (splay_erase (some t2) k).2.2 = some t3 ∧
      (splay_find (some t3) k).1.found = false := by
  obtain ⟨L, R, hins, hrec⟩ := insert_and_splay_records t.root k s
  have hsas1 : search_and_splay (STree.node L k s R) k
      = (.node L k s R, true) := sas_at_root L k s R
  have hf2 : (search_and_splay
      ((⟨.node L k s R, (t.size + 1) % UINT_MOD⟩ : splay_Tree)).root k).2
      = true := by
    simp [hsas1]
  obtain ⟨ml, ms, mr, t3, hsplit, herase, hrec3, hsize3⟩ :=
    splay_erase_found ⟨.node L k s R, (t.size + 1) % UINT_MOD⟩ k hf2
  rw [hsas1] at hsplit
  simp only [STree.node.injEq] at hsplit
  obtain ⟨hL, -, hs, hR⟩ := hsplit
  refine ⟨⟨.node L k s R, (t.size + 1) % UINT_MOD⟩,
    ⟨.node L k s R, (t.size + 1) % UINT_MOD⟩, t3, ?_, ?_, ?_, ?_, ?_, ?_⟩
  · simp [splay_insert, hins]
  · have hff := splay_find_found ⟨.node L k s R, (t.size + 1) % UINT_MOD⟩ k hf2
    simpa [hsas1, rootSat] using hff
  · rw [herase]
  · rw [herase, hs]
  · rw [herase]
  · have hkeys3 : keyList t3.root = keyList t.root := by
      rw [keyList, hrec3, ← hL, ← hR, hrec, ← keyList]
    have hf3 : (search_and_splay t3.root k).2 = false := by
      rw [sas_found_spec]
      apply specFound_eq_false_of_not_mem
      rw [hkeys3]
      exact h
    rw [splay_find_notfound t3 k hf3]
    simp [SPLAY_BLANK_RESULT]

theorem C7_witness :
    ((3 : splay_Key) ∉ keyList (⟨.node .nil 5 none .nil, 1⟩ : splay_Tree).root) ∧
    (∃ t1 t2 t3,
      splay_insert true ⟨.node .nil 5 none .nil, 1⟩ 3 (some 7) = (true, t1) ∧
      splay_find (some t1) 3 = (⟨true, 3, some 7⟩, some t2) ∧
      (splay_erase (some t2) 3).1 = true ∧
      (splay_erase (some t2) 3).2.1 = some (some 7) ∧
      (splay_erase (some t2) 3).2.2 = some t3 ∧
      (splay_find (some t3) 3).1.found = false) :=
  ⟨by decide, C7_round_trip ⟨.node .nil 5 none .nil, 1⟩ 3 (some 7) (by decide)⟩

/-- C8: for a tree whose keys lie in the `int` range (and whose size and
node count are representable as `unsigned`, as they are for any state of
the C program), `splay_health_check` passes exactly when the size field
equals the number of reachable nodes, size is consistent with root
nullity, and the BST-ordering property holds at every reachable node.  The
embedded check is a pure function of the tree, reflecting that the C
code never mutates or splays it. -/
theorem C8_health_check (t : splay_Tree)
    (hk : ∀ y ∈ keyList t.root, INT_MIN ≤ y ∧ y ≤ INT_MAX)
    (_hs : t.size < UINT_MOD) (_hn : splay_nodecount t.root < UINT_MOD) :
    splay_health_check (some t) = true ↔
      (t.size = splay_nodecount t.root ∧ (t.size = 0 ↔ t.root = .nil) ∧
        isOrdered t.root = true) :=
  splay_health_check_iff t hk

theorem C8_witness :
    (∀ y ∈ keyList (⟨.node (.node .nil 1 none .nil) 2 none .nil, 2⟩
        : splay_Tree).root, INT_MIN ≤ y ∧ y ≤ INT_MAX) ∧
    ((⟨.node (.node .nil 1 none .nil) 2 none .nil, 2⟩ : splay_Tree).size
        < UINT_MOD) ∧
    (splay_nodecount (⟨.node (.node .nil 1 none .nil) 2 none .nil, 2⟩
        : splay_Tree).root < UINT_MOD) ∧
    (splay_health_check (some ⟨.node (.node .nil 1 none .nil) 2 none .nil, 2⟩)
        = true ↔
      ((⟨.node (.node .nil 1 none .nil) 2 none .nil, 2⟩ : splay_Tree).size
          = splay_nodecount (⟨.node (.node .nil 1 none .nil) 2 none .nil, 2⟩
              : splay_Tree).root ∧
        ((⟨.node (.node .nil 1 none .nil) 2 none .nil, 2⟩ : splay_Tree).size = 0 ↔
          (⟨.node (.node .nil 1 none .nil) 2 none .nil, 2⟩ : splay_Tree).root
            = .nil) ∧
        isOrdered (⟨.node (.node .nil 1 none .nil) 2 none .nil, 2⟩
            : splay_Tree).root = true)) :=
  ⟨by decide, by decide, by decide,
    C8_health_check ⟨.node (.node .nil 1 none .nil) 2 none .nil, 2⟩
      (by decide) (by decide) (by decide)⟩

/-- C9: erasing a key absent from the tree signals failure and leaves the
size field and the multiset of stored (key, satellite) records unchanged,
even though the shape may change: the node last compared on the failed
search path has been splayed to the root when erase reports failure. -/
theorem C9_erase_absent_frame (t : splay_Tree) (k : splay_Key)
    (h : k ∉ keyList t.root) :
    (splay_erase (some t) k).1 = false ∧
    ∃ t', (splay_erase (some t) k).2.2 = some t' ∧
      t'.size = t.size ∧
      (↑(recordList t'.root) : Multiset (splay_Key × splay_Satellite))
        = ↑(recordList t.root) ∧
      (t.root ≠ .nil → rootKey t'.root = specLastComparedKey k t.root) := by
  obtain ⟨he, hr⟩ := erase_absent t k h
  have hf : (search_and_splay t.root k).2 = false := by
    rw [sas_found_spec]
    exact specFound_eq_false_of_not_mem k t.root h
  rw [he]
  exact ⟨rfl, _, rfl, rfl, by rw [hr],
    fun hne => sas_rootKey_notfound t.root k hne hf⟩

theorem C9_witness :
    ((0 : splay_Key) ∉ keyList (⟨.node (.node .nil 1 (some 4) .nil) 2 (some 5) .nil, 2⟩
        : splay_Tree).root) ∧
    ((splay_erase (some ⟨.node (.node .nil 1 (some 4) .nil) 2 (some 5) .nil, 2⟩) 0).1
        = false ∧
    ∃ t', (splay_erase
          (some ⟨.node (.node .nil 1 (some 4) .nil) 2 (some 5) .nil, 2⟩) 0).2.2
        = some t' ∧
      t'.size = (⟨.node (.node .nil 1 (some 4) .nil) 2 (some 5) .nil, 2⟩
          : splay_Tree).size ∧
      (↑(recordList t'.root) : Multiset (splay_Key × splay_Satellite))
        = ↑(recordList (⟨.node (.node .nil 1 (some 4) .nil) 2 (some 5) .nil, 2⟩
            : splay_Tree).root) ∧
      ((⟨.node (.node .nil 1 (some 4) .nil) 2 (some 5) .nil, 2⟩
          : splay_Tree).root ≠ .nil →
        rootKey t'.root = specLastComparedKey 0
          (⟨.node (.node .nil 1 (some 4) .nil) 2 (some 5) .nil, 2⟩
            : splay_Tree).root)) :=
  ⟨by decide,
    C9_erase_absent_frame ⟨.node (.node .nil 1 (some 4) .nil) 2 (some 5) .nil, 2⟩ 0
      (by decide)⟩

/-- C10: a NULL tree handle passed to `splay_find`, `splay_min` or
`splay_max` is tolerated: each returns the blank result (found 0, key 0,
NULL satellite) and leaves the handle untouched, rather than signalling an
error. -/
theorem C10_null_handle_quiet (k : splay_Key) :
    splay_find none k = (⟨false, 0, none⟩, none) ∧
    splay_min none = (⟨false, 0, none⟩, none) ∧
    splay_max none = (⟨false, 0, none⟩, none) :=
  ⟨rfl, rfl, rfl⟩
